import Mathlib

/-!
# Verification of the Comprehensive Folder Mapper

A shallow embedding of `folder_mapper_script.py` (class
`ComprehensiveFolderMapper`): the processing statistics, the per-item
processing of files and directories (`_process_file`, `_process_directory`,
`_process_single_item`, `_process_item_batch`), the batch-producing walker
(`_generate_item_batches`), the human-size formatter (`_format_size`),
the description heuristics, the markdown report renderer
(`generate_markdown_report` and its `_write_*` helpers), and the
orchestrating `execute`/`cleanup` pair.

Machine integers are modelled as `Nat` (Python ints are unbounded).
Filesystem effects (stat results, directory listings, MIME lookups) are
modelled as explicit inputs.  An unexpected exception during the
classification of a single item is modelled by a per-item flag
(`descrRaises`), placed at the description-generation call: that is the
only stage of per-item processing that performs nontrivial work, and when
the item is inaccessible (and, for directories, also when it is empty)
the description functions return a constant string on their first line and
cannot fail, so the flag only takes effect on the accessible (non-empty)
path, mirroring the source control flow.
-/

/-- Dataclass `ProcessingStats` from the source: seven counters (the `start_time`
field is wall-clock time, irrelevant to any counter claim, and omitted). -/
structure ProcessingStats where
  processed_files : Nat
  processed_folders : Nat
  errors_encountered : Nat
  permission_denials : Nat
  large_files : Nat
  empty_directories : Nat
  total_size : Nat
deriving DecidableEq, Repr

/-- The dataclass defaults: every counter starts at `0`. -/
def initStats : ProcessingStats :=
  { processed_files := 0, processed_folders := 0, errors_encountered := 0
    permission_denials := 0, large_files := 0, empty_directories := 0
    total_size := 0 }

/-- The `item_type` strings `'file'` / `'directory'`. -/
inductive ItemKind where
  | file
  | directory
deriving DecidableEq, Repr

/-- Outcome of `file_path.stat()`: either a size and an mtime, or an
`OSError`/`PermissionError` (the source catches the two together). -/
inductive StatOutcome where
  | ok (size : Nat) (mtime : Nat)
  | denied
deriving DecidableEq, Repr

/-- Metadata of one child of a directory listing, as consumed by
`_generate_directory_description`: `Path.is_file()` / `Path.is_dir()`
(which swallow `OSError` and return `False`) and the lowercased suffix. -/
structure ChildInfo where
  isFile : Bool
  isDir : Bool
  ext : String
deriving DecidableEq, Repr

/-- Outcome of `list(dir_path.iterdir())`: the children, a
`PermissionError`, or another `OSError` (the source handles the two error
cases differently: only `PermissionError` bumps `permission_denials`). -/
inductive ListingOutcome where
  | ok (children : List ChildInfo)
  | permErr
  | osErr
deriving DecidableEq, Repr

/-- One file item handed to `_process_file`: its root-relative path parts,
the recorded level, the stat outcome, the `mimetypes.guess_type` answer,
and the abstract classification-failure flag (see module docstring). -/
structure FileSpec where
  path : List String
  level : Nat
  stat : StatOutcome
  mime : Option String
  descrRaises : Bool
deriving DecidableEq, Repr

/-- One directory item handed to `_process_directory`. -/
structure DirSpec where
  path : List String
  level : Nat
  listing : ListingOutcome
  descrRaises : Bool
deriving DecidableEq, Repr

/-- A `(item_path, item_type, level)` triple as dispatched by
`_process_item_batch` to `_process_single_item`. -/
inductive ItemSpec where
  | file (f : FileSpec)
  | directory (d : DirSpec)
deriving DecidableEq, Repr

/-- The dict returned by `_process_file` / `_process_directory`
(`structure_data` element).  A single record type carries both the file
and the directory fields; fields of the other kind are left at inert
defaults and are never read by the renderer for that kind, matching the
Python dicts which simply lack them. -/
structure Record where
  kind : ItemKind
  name : String
  path : List String
  description : String
  level : Nat
  size : Nat
  size_human : String
  modified : Option Nat
  extension : String
  mime_type : Option String
  item_count : Nat
  is_empty : Bool
  is_accessible : Bool
deriving DecidableEq, Repr

/-- Python `'pat' in s` (substring containment). -/
def strContainsSub (s pat : String) : Bool :=
  go s.data
where
  go : List Char → Bool
  | [] => pat.data.isPrefixOf []
  | c :: cs => pat.data.isPrefixOf (c :: cs) || go cs

/-- Index of the last `'.'` in the character list (Python `str.rfind`). -/
def rfindDotAux : List Char → Nat → Option Nat → Option Nat
  | [], _, acc => acc
  | c :: rest, i, acc => rfindDotAux rest (i + 1) (if c = '.' then some i else acc)

/-- Python `pathlib.PurePath.suffix` of a final path component: `name[i:]` for the
last dot index `i` when `0 < i < len(name) - 1`, else the empty string. -/
def pathSuffix (name : String) : String :=
  let cs := name.data
  match rfindDotAux cs 0 none with
  | some i => if 0 < i ∧ i < cs.length - 1 then String.mk (cs.drop i) else ""
  | none => ""

/-- Round `num / den` to the nearest integer, ties to even: the rounding
CPython's float-to-decimal formatting performs on an exactly representable
value. -/
def roundHalfEven (num den : Nat) : Nat :=
  let q := num / den
  let r := num % den
  if 2 * r < den then q
  else if den < 2 * r then q + 1
  else if q % 2 = 0 then q else q + 1

/-- Render a tenths count as a one-decimal string (`5000 ↦ "500.0"`),
the shape produced by Python's `f"{x:.1f}"`. -/
def fmtTenths (n : Nat) : String :=
  s!"{n / 10}.{n % 10}"

/-- The unit loop of `_format_size`.  The running float value after `k`
divisions is modelled exactly as the rational `size / den` with
`den = 1024^k`: for `size < 2^53` every Python intermediate is an exactly
representable double (division by the power of two only shifts the
exponent), and `f"{x:.1f}"` rounds the exact value half-to-even, so the
model coincides with CPython byte-for-byte on that whole range. -/
def formatSizeLoop (size den : Nat) : List String → String
  | [] => fmtTenths (roundHalfEven (size * 10) den) ++ " PB"
  | u :: us =>
    if size < 1024 * den then fmtTenths (roundHalfEven (size * 10) den) ++ " " ++ u
    else formatSizeLoop size (den * 1024) us

/-- Function `_format_size`: walk units `B, KB, MB, GB, TB`, dividing by 1024 until
the value drops below 1024; fall through to `PB`. -/
def formatSize (size : Nat) : String :=
  formatSizeLoop size 1 ["B", "KB", "MB", "GB", "TB"]

/-- Increment-or-append on an association list: the semantics of
`extensions[ext] = extensions.get(ext, 0) + 1` on an insertion-ordered
Python dict. -/
def bumpCount : List (String × Nat) → String → List (String × Nat)
  | [], e => [(e, 1)]
  | (k, c) :: rest, e =>
    if k = e then (k, c + 1) :: rest else (k, c) :: bumpCount rest e

/-- Python `max(pairs, key=lambda x: x[1])` on a nonempty list: first maximum
wins ties, exactly Python's `max`. -/
def maxByCount : List (String × Nat) → Option (String × Nat)
  | [] => none
  | x :: xs => some (xs.foldl (fun best y => if best.2 < y.2 then y else best) x)

/-- Function `_generate_directory_description` (source lines 317-369): ordered
priority chain — inaccessible constant, empty constant, name patterns,
dominant child extension, generic fallback. -/
def generateDirectoryDescription (name : String) (items : List ChildInfo)
    (is_accessible is_empty : Bool) : String :=
  if !is_accessible then "Directory with restricted access permissions"
  else if is_empty then "Empty directory"
  else
    let file_count := (items.filter (fun it => it.isFile)).length
    let dir_count := (items.filter (fun it => it.isDir)).length
    let extensions := items.foldl
      (fun acc it => if it.isFile then bumpCount acc it.ext else acc) []
    let dir_name := name.toLower
    let tail := s!"{file_count} files and {dir_count} subdirectories"
    if strContainsSub dir_name "test" then
      "Testing directory containing " ++ tail
    else if strContainsSub dir_name "doc" || strContainsSub dir_name "readme" then
      "Documentation directory with " ++ tail
    else if strContainsSub dir_name "src" || strContainsSub dir_name "source" then
      "Source code directory containing " ++ tail
    else if strContainsSub dir_name "lib" || strContainsSub dir_name "vendor" then
      "Library directory with " ++ tail
    else if strContainsSub dir_name "config" || strContainsSub dir_name "conf" then
      "Configuration directory containing " ++ tail
    else if strContainsSub dir_name "asset" || strContainsSub dir_name "static" then
      "Assets directory with " ++ tail
    else if strContainsSub dir_name "build" || strContainsSub dir_name "dist" then
      "Build/distribution directory containing " ++ tail
    else
      match maxByCount extensions with
      | some mc =>
        let most_common_ext := mc.1
        if most_common_ext = ".py" then
          "Python module directory with " ++ tail
        else if [".js", ".ts"].contains most_common_ext then
          "JavaScript/TypeScript directory with " ++ tail
        else if [".html", ".css"].contains most_common_ext then
          "Web assets directory with " ++ tail
        else if [".jpg", ".png", ".gif", ".svg"].contains most_common_ext then
          "Image assets directory with " ++ tail
        else "Directory containing " ++ tail
      | none => "Directory containing " ++ tail

/-- Function `_generate_file_description` (source lines 371-419): inaccessible
constant, extension table, filename keywords, generic fallback; each
phrase carries the size bucket and the human size. -/
def generateFileDescription (name : String) (size : Nat)
    (is_accessible : Bool) : String :=
  if !is_accessible then "File with restricted access permissions"
  else
    let file_name := name.toLower
    let extension := (pathSuffix name).toLower
    let size_desc :=
      if size < 1024 then "small"
      else if size < 1024 * 1024 then "medium"
      else "large"
    let tail := s!"({size_desc} size: " ++ formatSize size ++ ")"
    if extension = ".py" then "Python script file " ++ tail
    else if [".js", ".ts"].contains extension then
      "JavaScript/TypeScript file " ++ tail
    else if [".html", ".htm"].contains extension then
      "HTML document file " ++ tail
    else if extension = ".css" then "CSS stylesheet file " ++ tail
    else if [".json", ".yaml", ".yml"].contains extension then
      "Configuration/data file " ++ tail
    else if [".md", ".txt"].contains extension then
      "Text/documentation file " ++ tail
    else if [".jpg", ".jpeg", ".png", ".gif", ".svg"].contains extension then
      "Image file " ++ tail
    else if [".pdf", ".doc", ".docx"].contains extension then
      "Document file " ++ tail
    else if [".zip", ".tar", ".gz", ".rar"].contains extension then
      "Archive file " ++ tail
    else if [".exe", ".dll", ".so"].contains extension then
      "Executable/library file " ++ tail
    else if [".log", ".out"].contains extension then
      "Log/output file " ++ tail
    else if strContainsSub file_name "readme" then
      "README documentation file " ++ tail
    else if strContainsSub file_name "license" then
      "License file " ++ tail
    else if strContainsSub file_name "changelog" then
      "Changelog file " ++ tail
    else if strContainsSub file_name "config" then
      "Configuration file " ++ tail
    else if strContainsSub file_name "test" then
      "Test file " ++ tail
    else "File " ++ tail

/-- Function `_process_file` (source lines 273-315).  Stat failure sets
`size = 0`, `modified = None`, `is_accessible = False` and bumps
`permission_denials`; the large-file check precedes the description call;
`processed_files`/`total_size` are bumped just before the dict is built.
When the classification raises (modelled at the description call, which
only does nontrivial work on the accessible path) the outer handler logs
and returns `None`, keeping the stats mutations already made. -/
def processFile (f : FileSpec) (s : ProcessingStats) :
    Option Record × ProcessingStats :=
  let sizeModAcc :=
    match f.stat with
    | .ok sz mt => (sz, some mt, true, s)
    | .denied =>
      (0, none, false,
        { s with permission_denials := s.permission_denials + 1 })
  let size := sizeModAcc.1
  let modified := sizeModAcc.2.1
  let is_accessible := sizeModAcc.2.2.1
  let s1 := sizeModAcc.2.2.2
  let s2 :=
    if 100 * 1024 * 1024 < size then
      { s1 with large_files := s1.large_files + 1 }
    else s1
  if f.descrRaises && is_accessible then (none, s2)
  else
    let name := f.path.getLastD ""
    let description := generateFileDescription name size is_accessible
    let s3 := { s2 with processed_files := s2.processed_files + 1,
                        total_size := s2.total_size + size }
    (some { kind := .file, name := name, path := f.path
            description := description, level := f.level
            size := size, size_human := formatSize size
            modified := modified
            extension := (pathSuffix name).toLower
            mime_type := f.mime
            item_count := 0, is_empty := false
            is_accessible := is_accessible }, s3)

/-- Function `_process_directory` (source lines 232-271).  `PermissionError` on the
listing bumps `permission_denials`; a bare `OSError` does not; both leave
`items = []` and `is_accessible = False`.  `is_empty` requires
accessibility; an empty directory bumps `empty_directories`.  The
classification-failure flag only fires on the accessible non-empty path
(the two earlier description branches return constants). -/
def processDirectory (d : DirSpec) (s : ProcessingStats) :
    Option Record × ProcessingStats :=
  let itemsAcc :=
    match d.listing with
    | .ok cs => (cs, true, s)
    | .permErr =>
      (([] : List ChildInfo), false,
        { s with permission_denials := s.permission_denials + 1 })
    | .osErr => (([] : List ChildInfo), false, s)
  let items := itemsAcc.1
  let is_accessible := itemsAcc.2.1
  let s1 := itemsAcc.2.2
  let is_empty := items.length = 0 && is_accessible
  let s2 :=
    if is_empty then { s1 with empty_directories := s1.empty_directories + 1 }
    else s1
  if d.descrRaises && is_accessible && !items.isEmpty then (none, s2)
  else
    let name := d.path.getLastD ""
    let description := generateDirectoryDescription name items is_accessible is_empty
    let s3 := { s2 with processed_folders := s2.processed_folders + 1 }
    (some { kind := .directory, name := name, path := d.path
            description := description, level := d.level
            size := 0, size_human := "", modified := none
            extension := "", mime_type := none
            item_count := if is_accessible then items.length else 0
            is_empty := is_empty
            is_accessible := is_accessible }, s3)

/-- Function `_process_single_item` (source lines 221-230): dispatch on the item
kind.  Its catch-all `except` swallows every exception raised below it and
returns `None`, so the future submitted by `_process_item_batch` always
completes normally. -/
def processSingleItem (x : ItemSpec) (s : ProcessingStats) :
    Option Record × ProcessingStats :=
  match x with
  | .file f => processFile f s
  | .directory d => processDirectory d s

/-- Sequentialized model of `_process_item_batch` / the whole mapping loop:
process the items of all batches in the given order, appending each
non-`None` result to `structure_data` and threading the shared stats.
Concurrency is captured by quantifying theorems over all orders
(permutations) of this list.  Note that because `_process_single_item`
never lets an exception escape, the `except` arm of `_process_item_batch`
(the only place `errors_encountered` is incremented) can never run, and
this model has no path that touches `errors_encountered`. -/
def runProcessAux : List ItemSpec → ProcessingStats → List Record × ProcessingStats
  | [], s => ([], s)
  | x :: xs, s =>
    let rs1 := processSingleItem x s
    let rest := runProcessAux xs rs1.2
    (rs1.1.toList ++ rest.1, rest.2)

/-- A full mapping run over a given processing order, from fresh stats. -/
def runProcess (order : List ItemSpec) : List Record × ProcessingStats :=
  runProcessAux order initStats

/-- A directory of the extracted tree: named subdirectories (in native
listing order) and file names, the shape `os.walk` consumes. -/
inductive FSDir where
  | node (dirs : List (String × FSDir)) (files : List String)

/-- A `(root, dirs, files)` triple of `os.walk`, with `root` as its parts
relative to the extraction root. -/
abbrev WalkTriple := List String × List String × List String

mutual

/-- Python `os.walk(extracted_path)` in top-down order: yield the current root,
then recurse into each subdirectory in listing order.  The source never
prunes `dirs`, so the walk always descends. -/
def walkEntries : FSDir → List String → List WalkTriple
  | .node dirs files, ps =>
    (ps, dirs.map Prod.fst, files) :: walkEntriesList dirs ps

/-- Walk each subdirectory of a listing in order. -/
def walkEntriesList : List (String × FSDir) → List String → List WalkTriple
  | [], _ => []
  | (n, sub) :: rest, ps => walkEntries sub (ps ++ [n]) ++ walkEntriesList rest ps

end

/-- The `(path, kind, level)` triples contributed by one walked root:
first its subdirectories, then its files, all recorded with the root's own
level (source lines 182-198). -/
def rootEntries (t : WalkTriple) : List (List String × ItemKind × Nat) :=
  (t.2.1.map fun d => (t.1 ++ [d], ItemKind.directory, t.1.length)) ++
  (t.2.2.map fun f => (t.1 ++ [f], ItemKind.file, t.1.length))

/-- The item stream of `_generate_item_batches` before chunking: for each
walked root compute `level = len(root.relative_to(extracted_path).parts)`;
if `level > max_depth`, log a warning and `continue` (dropping only that
root's entries — the walk itself still descends); otherwise emit the
root's directory and file entries. -/
def walkItemsOf (ts : List WalkTriple) (maxDepth : Nat) :
    List (List String × ItemKind × Nat) :=
  ts.flatMap fun t => if maxDepth < t.1.length then [] else rootEntries t

/-- All items the walker would emit for a tree under a depth bound. -/
def walkerItems (t : FSDir) (maxDepth : Nat) : List (List String × ItemKind × Nat) :=
  walkItemsOf (walkEntries t []) maxDepth

/-- Every item of the tree, with no depth bound applied. -/
def allWalkItems (t : FSDir) : List (List String × ItemKind × Nat) :=
  (walkEntries t []).flatMap rootEntries

/-- The chunking loop of `_generate_item_batches`: append each item to the
current batch, yield the batch as soon as it reaches `chunk_size`, and
yield the final partial batch only if nonempty. -/
def mkBatchesGo (c : Nat) (acc : List (List α)) (cur : List α) :
    List α → List (List α)
  | [] => if cur.isEmpty then acc else acc ++ [cur]
  | x :: xs =>
    let cur2 := cur ++ [x]
    if c ≤ cur2.length then mkBatchesGo c (acc ++ [cur2]) [] xs
    else mkBatchesGo c acc cur2 xs

/-- Function `_generate_item_batches`, given the flat item stream: the yielded
batches. -/
def mkBatches (c : Nat) (l : List α) : List (List α) :=
  mkBatchesGo c [] [] l

/-- Outcome of one pipeline stage as seen by `execute`: the stage method
returned `True`, returned `False`, or let an exception escape (the stage
methods catch `Exception` themselves, so this last case models anything
that slips past them and reaches `execute`'s own handler). -/
inductive StageRes where
  | ok
  | failed
  | raised
deriving DecidableEq, Repr

/-- The stage outcomes of one run of `execute`. -/
structure RunSpec where
  extract : StageRes
  mapDir : StageRes
  render : StageRes
deriving DecidableEq, Repr

/-- Observable events of `execute`: a stage being entered, and the
`finally`-block call of `cleanup()` (the action that removes the temporary
extraction root). -/
inductive RunEvent where
  | extractStage
  | mapStage
  | renderStage
  | cleanupAction
deriving DecidableEq, Repr

/-- Method `execute` (source lines 565-593): run Extract, Map, Render in order,
aborting with `False` on the first stage that returns `False`; an
exception escaping a stage is caught by the `except` arm, which also
yields `False`; the `finally` block calls `cleanup()` on every path, after
the stages and before the return value is delivered.  Returns the reported
result and the event trace. -/
def execute (r : RunSpec) : Bool × List RunEvent :=
  let body : Bool × List RunEvent :=
    match r.extract with
    | .raised => (false, [.extractStage])
    | .failed => (false, [.extractStage])
    | .ok =>
      match r.mapDir with
      | .raised => (false, [.extractStage, .mapStage])
      | .failed => (false, [.extractStage, .mapStage])
      | .ok =>
        match r.render with
        | .raised => (false, [.extractStage, .mapStage, .renderStage])
        | .failed => (false, [.extractStage, .mapStage, .renderStage])
        | .ok => (true, [.extractStage, .mapStage, .renderStage])
  (body.1, body.2 ++ [.cleanupAction])

/-- Python `f"{n:,}"`: digit grouping with commas, on the reversed digit
list. -/
def fmtCommaRev : List Char → List Char
  | a :: b :: c :: d :: rest => a :: b :: c :: ',' :: fmtCommaRev (d :: rest)
  | l => l

/-- Python `f"{n:,}"` for a natural number. -/
def fmtComma (n : Nat) : String :=
  String.mk ((fmtCommaRev (toString n).data.reverse).reverse)

/-- Python `str(path)` of a relative path: its parts joined with `/`. -/
def pathStr (ps : List String) : String :=
  String.intercalate "/" ps

/-- Python `str(Path(p).parent)`: drop the last part; the empty relative
path prints as `"."`. -/
def parentStr (ps : List String) : String :=
  let par := ps.dropLast
  if par.isEmpty then "." else pathStr par

/-- Value of `item['type']`. -/
def typeStr : ItemKind → String
  | .file => "file"
  | .directory => "directory"

/-- Python `item['type'].title()`. -/
def titleStr : ItemKind → String
  | .file => "File"
  | .directory => "Directory"

/-- Sort key of `generate_markdown_report`:
`lambda x: (x['path'], x['type'])`. -/
def keyOf (r : Record) : String × String :=
  (pathStr r.path, typeStr r.kind)

/-- Python tuple comparison on `(path, type)` string pairs. -/
def strPairLe (a b : String × String) : Prop :=
  a.1 < b.1 ∨ (a.1 = b.1 ∧ a.2 ≤ b.2)

instance : DecidableRel strPairLe := fun a b => by
  unfold strPairLe; infer_instance

/-- Record order used by the report's main sort. -/
def recLe (a b : Record) : Prop :=
  strPairLe (keyOf a) (keyOf b)

instance : DecidableRel recLe := fun a b => by
  unfold recLe; infer_instance

instance : IsTotal Record recLe := by
  constructor
  intro a b
  unfold recLe strPairLe
  rcases lt_trichotomy (keyOf a).1 (keyOf b).1 with h | h | h
  · exact Or.inl (Or.inl h)
  · rcases le_total (keyOf a).2 (keyOf b).2 with h2 | h2
    · exact Or.inl (Or.inr ⟨h, h2⟩)
    · exact Or.inr (Or.inr ⟨h.symm, h2⟩)
  · exact Or.inr (Or.inl h)

instance : IsTrans Record recLe := by
  constructor
  intro a b c hab hbc
  unfold recLe strPairLe at *
  rcases hab with h1 | ⟨e1, le1⟩
  · rcases hbc with h2 | ⟨e2, _⟩
    · exact Or.inl (h1.trans h2)
    · exact Or.inl (e2 ▸ h1)
  · rcases hbc with h2 | ⟨e2, le2⟩
    · exact Or.inl (e1 ▸ h2)
    · exact Or.inr ⟨e1.trans e2, le1.trans le2⟩

/-- Record order of the tree section's re-sort:
`directories.sort(key=lambda x: x['path'])`. -/
def pathOnlyLe (a b : Record) : Prop :=
  pathStr a.path ≤ pathStr b.path

instance : DecidableRel pathOnlyLe := fun a b => by
  unfold pathOnlyLe; infer_instance

/-- Descending-count order of the appendix's
`sorted(extensions.items(), key=lambda x: x[1], reverse=True)`. -/
def countGe (a b : String × Nat) : Prop :=
  b.2 ≤ a.2

instance : DecidableRel countGe := fun a b => by
  unfold countGe; infer_instance

/-- Two spaces per level of indentation. -/
def indentOf (level : Nat) : String :=
  String.join (List.replicate level "  ")

/-- Section writer `_write_markdown_header`.  The two `datetime.now()`
reads and the source path are passed in as fixed strings. -/
def mdHeader (genTime procTime zipPath : String) : String :=
  "# Comprehensive Folder Mapping Report\n\n" ++
  "**Generated:** " ++ genTime ++ "\n" ++
  "**Source:** " ++ zipPath ++ "\n" ++
  "**Processing Time:** " ++ procTime ++ "\n\n" ++
  "---\n\n"

/-- Section writer `_write_summary_statistics`. -/
def mdSummary (stats : ProcessingStats) : String :=
  "## Summary Statistics\n\n" ++
  "- **Total Files:** " ++ fmtComma stats.processed_files ++ "\n" ++
  "- **Total Folders:** " ++ fmtComma stats.processed_folders ++ "\n" ++
  "- **Total Size:** " ++ formatSize stats.total_size ++ "\n" ++
  "- **Large Files (>100MB):** " ++ fmtComma stats.large_files ++ "\n" ++
  "- **Empty Directories:** " ++ fmtComma stats.empty_directories ++ "\n" ++
  "- **Permission Denials:** " ++ fmtComma stats.permission_denials ++ "\n" ++
  "- **Processing Errors:** " ++ fmtComma stats.errors_encountered ++ "\n\n" ++
  "---\n\n"

/-- Section writer `_write_directory_structure`: directory items only,
re-sorted by path (a stable sort, like Python's), one indented line each. -/
def mdTree (sorted : List Record) : String :=
  let directories := sorted.filter fun r => r.kind = ItemKind.directory
  let dirsSorted := List.insertionSort pathOnlyLe directories
  "## Directory Structure Tree\n\n" ++
  "```\n" ++
  String.join (dirsSorted.map fun d => indentOf d.level ++ "📁 " ++ d.name ++ "/\n") ++
  "```\n\n" ++
  "---\n\n"

/-- One item block of `_write_detailed_listings` (without the group
header). -/
def listingEntry (item : Record) : String :=
  let icon := match item.kind with
    | .directory => "📁"
    | .file => "📄"
  "**" ++ icon ++ " " ++ item.name ++ "**\n" ++
  "- **Path:** `" ++ pathStr item.path ++ "`\n" ++
  "- **Type:** " ++ titleStr item.kind ++ "\n" ++
  "- **Description:** " ++ item.description ++ "\n" ++
  (match item.kind with
   | .file =>
     "- **Size:** " ++ item.size_human ++ "\n" ++
     (match item.mime_type with
      | some m => if m = "" then "" else "- **MIME Type:** " ++ m ++ "\n"
      | none => "") ++
     (if item.extension = "" then ""
      else "- **Extension:** " ++ item.extension ++ "\n")
   | .directory =>
     "- **Items:** " ++ toString item.item_count ++ "\n" ++
     "- **Status:** " ++
       (if item.is_accessible then "Accessible" else "Restricted") ++ "\n") ++
  "\n"

/-- Grouping loop of `_write_detailed_listings`: emit a `### Directory`
header whenever the immediate parent path changes (`### Root Directory`
for `.`), then the item block. -/
def listingsGo : List Record → String → String
  | [], _ => ""
  | it :: rest, curPath =>
    let itemDir := parentStr it.path
    let hdr :=
      if itemDir ≠ curPath then
        if itemDir ≠ "." then "### Directory: `" ++ itemDir ++ "`\n\n"
        else "### Root Directory\n\n"
      else ""
    hdr ++ listingEntry it ++ listingsGo rest itemDir

/-- Section writer `_write_detailed_listings` (initial `current_path` is
the empty string). -/
def mdListings (sorted : List Record) : String :=
  "## Detailed File and Folder Listings\n\n" ++
  listingsGo sorted "" ++
  "---\n\n"

/-- Section writer `_write_appendix`: extension histogram over file items
with a truthy extension, insertion-ordered, then stably sorted by
descending count. -/
def mdAppendix (sorted : List Record) : String :=
  let extensions := sorted.foldl
    (fun acc it =>
      if it.kind = ItemKind.file ∧ it.extension ≠ "" then
        bumpCount acc it.extension
      else acc) []
  let sortedExts := List.insertionSort countGe extensions
  "## Appendix\n\n" ++
  "### File Extensions Summary\n\n" ++
  String.join (sortedExts.map fun ec =>
    "- **" ++ ec.1 ++ ":** " ++ fmtComma ec.2 ++ " files\n") ++
  "\n" ++
  "### Processing Log\n\n" ++
  "For detailed processing information, see the log file generated alongside this report.\n\n" ++
  "---\n\n" ++
  "*Report generated by Comprehensive Folder Mapper*\n"

/-- Method `generate_markdown_report` (source lines 435-455): sort
`structure_data` by `(path, type)`, then write the five sections.  The
rendered document is returned as one string; the wall-clock strings and
the source path are fixed inputs. -/
def generateMarkdownReport (structureData : List Record)
    (stats : ProcessingStats) (genTime procTime zipPath : String) : String :=
  let sorted := List.insertionSort recLe structureData
  mdHeader genTime procTime zipPath ++
  mdSummary stats ++
  mdTree sorted ++
  mdListings sorted ++
  mdAppendix sorted

/-- List of units the spec names for human-size formatting. -/
def sizeUnits : List String := ["B", "KB", "MB", "GB", "TB", "PB"]

/-- Definition written from the spec's words, for comparison with
`formatSize` (which is translated from the source): "repeatedly divide by
1024 across units B, KB, MB, GB, TB, PB, stopping at the first unit where
the remaining magnitude is below 1024, formatted with exactly one decimal
place".  `none` when no unit of the list qualifies (the spec's stopping
rule then selects nothing). -/
def specHumanSize (size : Nat) : Option String :=
  (List.range 6).findSome? fun k =>
    if size < 1024 ^ (k + 1) then
      some (fmtTenths (roundHalfEven (size * 10) (1024 ^ k)) ++ " " ++ sizeUnits.getD k "")
    else none

/-- Derived record of one item (the result is independent of the stats
the worker sees). -/
def recOf (x : ItemSpec) : Option Record :=
  (processSingleItem x initStats).1

/-- Stats action of one item. -/
def applyStats (s : ProcessingStats) (x : ItemSpec) : ProcessingStats :=
  (processSingleItem x s).2

/-- Componentwise addition of stats. -/
def addStats (s t : ProcessingStats) : ProcessingStats :=
  { processed_files := s.processed_files + t.processed_files
    processed_folders := s.processed_folders + t.processed_folders
    errors_encountered := s.errors_encountered + t.errors_encountered
    permission_denials := s.permission_denials + t.permission_denials
    large_files := s.large_files + t.large_files
    empty_directories := s.empty_directories + t.empty_directories
    total_size := s.total_size + t.total_size }

/-- The relative path carried by an item spec. -/
def specPath : ItemSpec → List String
  | .file f => f.path
  | .directory d => d.path

lemma processFile_fst_indep (f : FileSpec) (s : ProcessingStats) :
    (processFile f s).1 = (processFile f initStats).1 := by
  cases hst : f.stat <;> simp only [processFile, hst] <;> split <;> rfl

lemma processDirectory_fst_indep (d : DirSpec) (s : ProcessingStats) :
    (processDirectory d s).1 = (processDirectory d initStats).1 := by
  cases hl : d.listing <;> simp only [processDirectory, hl] <;> split <;> rfl

lemma processSingleItem_fst_indep (x : ItemSpec) (s : ProcessingStats) :
    (processSingleItem x s).1 = recOf x := by
  cases x with
  | file f => exact processFile_fst_indep f s
  | directory d => exact processDirectory_fst_indep d s

lemma runProcessAux_fst (l : List ItemSpec) (s : ProcessingStats) :
    (runProcessAux l s).1 = l.filterMap recOf := by
  induction l generalizing s with
  | nil => rfl
  | cons x xs ih =>
    simp only [runProcessAux, ih, List.filterMap_cons, processSingleItem_fst_indep]
    cases recOf x <;> simp

lemma runProcessAux_snd (l : List ItemSpec) (s : ProcessingStats) :
    (runProcessAux l s).2 = l.foldl applyStats s := by
  induction l generalizing s with
  | nil => rfl
  | cons x xs ih => simp only [runProcessAux, ih, List.foldl_cons, applyStats]

lemma applyStats_eq_add (x : ItemSpec) (s : ProcessingStats) :
    applyStats s x = addStats s (applyStats initStats x) := by
  cases s with
  | mk a b c d e g h =>
    cases x with
    | file f =>
      cases hst : f.stat <;>
        simp only [applyStats, processSingleItem, processFile, hst] <;>
        split_ifs <;> simp_all [addStats, initStats]
    | directory dd =>
      cases hl : dd.listing <;>
        simp only [applyStats, processSingleItem, processDirectory, hl] <;>
        split_ifs <;> simp_all [addStats, initStats]

lemma addStats_right_comm (s t u : ProcessingStats) :
    addStats (addStats s t) u = addStats (addStats s u) t := by
  cases s; cases t; cases u
  simp [addStats]
  omega

lemma foldl_applyStats_perm {l₁ l₂ : List ItemSpec} (h : List.Perm l₁ l₂) :
    ∀ s, l₁.foldl applyStats s = l₂.foldl applyStats s := by
  induction h with
  | nil => intro s; rfl
  | cons x _ ih => intro s; simp only [List.foldl_cons]; exact ih _
  | swap x y l =>
    intro s
    simp only [List.foldl_cons]
    rw [applyStats_eq_add x (applyStats s y), applyStats_eq_add y s,
      applyStats_eq_add y (applyStats s x), applyStats_eq_add x s,
      addStats_right_comm]
  | trans _ _ ih1 ih2 => intro s; rw [ih1, ih2]

lemma processSingleItem_errors (x : ItemSpec) (s : ProcessingStats) :
    (processSingleItem x s).2.errors_encountered = s.errors_encountered := by
  cases x with
  | file f =>
    cases hst : f.stat <;> simp only [processSingleItem, processFile, hst] <;>
      split_ifs <;> rfl
  | directory d =>
    cases hl : d.listing <;> simp only [processSingleItem, processDirectory, hl] <;>
      split_ifs <;> rfl

lemma runProcessAux_errors (l : List ItemSpec) (s : ProcessingStats) :
    (runProcessAux l s).2.errors_encountered = s.errors_encountered := by
  induction l generalizing s with
  | nil => rfl
  | cons x xs ih =>
    simp only [runProcessAux, ih, processSingleItem_errors]

lemma processSingleItem_total (x : ItemSpec) (s : ProcessingStats) :
    (processSingleItem x s).2.total_size =
      s.total_size +
        ((((processSingleItem x s).1.toList).filter
            (fun r => r.kind = ItemKind.file ∧ r.is_accessible)).map Record.size).sum := by
  cases x with
  | file f =>
    cases hst : f.stat <;> simp only [processSingleItem, processFile, hst] <;>
      split_ifs <;> simp [List.filter]
  | directory d =>
    cases hl : d.listing <;> simp only [processSingleItem, processDirectory, hl] <;>
      split_ifs <;> simp [List.filter]

lemma runProcessAux_total (l : List ItemSpec) (s : ProcessingStats) :
    (runProcessAux l s).2.total_size =
      s.total_size +
        (((runProcessAux l s).1.filter
            (fun r => r.kind = ItemKind.file ∧ r.is_accessible)).map Record.size).sum := by
  induction l generalizing s with
  | nil => simp [runProcessAux]
  | cons x xs ih =>
    simp only [runProcessAux, List.filter_append, List.map_append, List.sum_append]
    rw [ih, processSingleItem_total x s]
    omega

/-- C1: after all items have been processed (in any order, covering every
interleaving of the walker's batches and every worker schedule), the
`total_size` counter equals the sum of the recorded `size` over the file
items of the collected result set that have `is_accessible = true`.
Inaccessible files are recorded with `size = 0` and add `0`; items dropped
by a classification failure add nothing. -/
theorem totalSize_eq_sum_of_accessible_file_sizes (order : List ItemSpec) :
    (runProcess order).2.total_size =
      (((runProcess order).1.filter
          (fun r => r.kind = ItemKind.file ∧ r.is_accessible)).map Record.size).sum := by
  have h := runProcessAux_total order initStats
  simpa [runProcess, initStats] using h

/-- Concrete accessible file whose classification raises. -/
def failingFileItem : ItemSpec :=
  .file { path := ["data.bin"], level := 0, stat := .ok 5 0, mime := none
          descrRaises := true }

/-- C2 counterexample: a file whose classification raises an error is
dropped from the result set, but `errors_encountered` stays `0` — the
claim's "increments the errorsEncountered counter" is false on the code,
because `_process_single_item` swallows the exception and returns `None`,
so the `except` arm of `_process_item_batch` that performs the increment
never runs. -/
theorem classification_error_does_not_increment_errors :
    (runProcess [failingFileItem]).1 = [] ∧
    (runProcess [failingFileItem]).2.errors_encountered = 0 := by
  constructor <;> rfl

/-- C2 (amended): a per-item classification failure is caught and logged,
the item is dropped from the result set, and the batch and the run
continue unaffected (the remaining items produce exactly the result set
they would without the failing item); however `errors_encountered` is NOT
incremented — it remains `0` for the whole run, since the only increment
site is unreachable. -/
theorem classification_error_drops_item_run_continues
    (pre post : List ItemSpec) (x : ItemSpec)
    (hx : (processSingleItem x initStats).1 = none) :
    (runProcess (pre ++ x :: post)).1 = (runProcess (pre ++ post)).1 ∧
    (runProcess (pre ++ post)).2.errors_encountered = 0 ∧
    (runProcess (pre ++ x :: post)).2.errors_encountered = 0 := by
  refine ⟨?_, ?_, ?_⟩
  · simp only [runProcess, runProcessAux_fst, List.filterMap_append, List.filterMap_cons]
    rw [show recOf x = none from hx]
  · simp [runProcess, runProcessAux_errors, initStats]
  · simp [runProcess, runProcessAux_errors, initStats]

/-- Witness for the amended C2 theorem at a concrete run. -/
theorem classification_error_drops_item_run_continues_witness :
    (runProcess ([] ++ failingFileItem :: [])).1 = (runProcess ([] ++ [])).1 ∧
    (runProcess ([] ++ [])).2.errors_encountered = 0 ∧
    (runProcess ([] ++ failingFileItem :: [])).2.errors_encountered = 0 :=
  classification_error_drops_item_run_continues [] [] failingFileItem (by decide)

/-- C3: an item whose stat (file) or listing (directory) fails with a
permission error is still recorded in the result set, marked
`is_accessible = false`, bumps `permission_denials` by one, and leaves
`errors_encountered` untouched.  (For files the source catches
`OSError` and `PermissionError` together on the same path.) -/
theorem permission_error_item_retained
    (f : FileSpec) (d : DirSpec) (s t : ProcessingStats)
    (hf : f.stat = StatOutcome.denied) (hd : d.listing = ListingOutcome.permErr) :
    (∃ r, (processFile f s).1 = some r ∧ r.is_accessible = false) ∧
    (processFile f s).2.permission_denials = s.permission_denials + 1 ∧
    (processFile f s).2.errors_encountered = s.errors_encountered ∧
    (∃ r, (processDirectory d t).1 = some r ∧ r.is_accessible = false) ∧
    (processDirectory d t).2.permission_denials = t.permission_denials + 1 ∧
    (processDirectory d t).2.errors_encountered = t.errors_encountered := by
  simp only [processFile, processDirectory, hf, hd]
  norm_num

/-- Witness for the C3 theorem at a concrete file, directory and stats. -/
theorem permission_error_item_retained_witness :
    (∃ r, (processFile { path := ["locked.txt"], level := 1, stat := .denied
                         mime := none, descrRaises := false } initStats).1 = some r ∧
      r.is_accessible = false) ∧
    (processFile { path := ["locked.txt"], level := 1, stat := .denied
                   mime := none, descrRaises := false } initStats).2.permission_denials =
      initStats.permission_denials + 1 ∧
    (processFile { path := ["locked.txt"], level := 1, stat := .denied
                   mime := none, descrRaises := false } initStats).2.errors_encountered =
      initStats.errors_encountered ∧
    (∃ r, (processDirectory { path := ["locked"], level := 1, listing := .permErr
                              descrRaises := false } initStats).1 = some r ∧
      r.is_accessible = false) ∧
    (processDirectory { path := ["locked"], level := 1, listing := .permErr
                        descrRaises := false } initStats).2.permission_denials =
      initStats.permission_denials + 1 ∧
    (processDirectory { path := ["locked"], level := 1, listing := .permErr
                        descrRaises := false } initStats).2.errors_encountered =
      initStats.errors_encountered :=
  permission_error_item_retained _ _ initStats initStats rfl rfl

/-- C9: on every exit path of `execute` — success, extraction failure,
mapping failure, render failure, or an unexpected exception escaping any
stage — the cleanup action (removal of the temporary extraction root, in
the `finally` block) runs exactly once, and it runs after all stage work,
before the final result is reported. -/
theorem cleanup_runs_exactly_once_and_last (r : RunSpec) :
    ((execute r).2.count RunEvent.cleanupAction = 1) ∧
    ((execute r).2.getLast? = some RunEvent.cleanupAction) := by
  rcases r with ⟨e, m, rn⟩
  cases e <;> cases m <;> cases rn <;> exact ⟨rfl, rfl⟩

/-- C10: a file whose stat raises `OSError` or `PermissionError` is still
returned (not dropped) with `is_accessible = false`, `size = 0` and
`modified = None`; `processed_files` is still incremented for it, it
contributes nothing to `total_size`, and `large_files` is unchanged. -/
theorem file_stat_failure_retained_with_defaults (f : FileSpec) (s : ProcessingStats)
    (h : f.stat = StatOutcome.denied) :
    (∃ r, (processFile f s).1 = some r ∧ r.is_accessible = false ∧ r.size = 0 ∧
      r.modified = none) ∧
    (processFile f s).2.processed_files = s.processed_files + 1 ∧
    (processFile f s).2.total_size = s.total_size ∧
    (processFile f s).2.large_files = s.large_files := by
  simp only [processFile, h]
  norm_num

/-- Witness for the C10 theorem at a concrete file and stats. -/
theorem file_stat_failure_retained_witness :
    (∃ r, (processFile { path := ["gone.dat"], level := 2, stat := .denied
                         mime := none, descrRaises := false } initStats).1 = some r ∧
      r.is_accessible = false ∧ r.size = 0 ∧ r.modified = none) ∧
    (processFile { path := ["gone.dat"], level := 2, stat := .denied
                   mime := none, descrRaises := false } initStats).2.processed_files =
      initStats.processed_files + 1 ∧
    (processFile { path := ["gone.dat"], level := 2, stat := .denied
                   mime := none, descrRaises := false } initStats).2.total_size =
      initStats.total_size ∧
    (processFile { path := ["gone.dat"], level := 2, stat := .denied
                   mime := none, descrRaises := false } initStats).2.large_files =
      initStats.large_files :=
  file_stat_failure_retained_with_defaults _ initStats rfl

lemma rootEntries_level (t : WalkTriple) : ∀ e ∈ rootEntries t, e.2.2 = t.1.length := by
  intro e he
  simp only [rootEntries, List.mem_append, List.mem_map] at he
  rcases he with ⟨d, _, rfl⟩ | ⟨f, _, rfl⟩ <;> rfl

lemma walkItemsOf_eq_filter (ts : List WalkTriple) (maxDepth : Nat) :
    walkItemsOf ts maxDepth =
      (ts.flatMap rootEntries).filter (fun e => e.2.2 ≤ maxDepth) := by
  induction ts with
  | nil => rfl
  | cons t ts ih =>
    simp only [walkItemsOf, List.flatMap_cons, List.filter_append] at *
    rw [← ih]
    by_cases hd : maxDepth < t.1.length
    · rw [if_pos hd]
      have hnil : (rootEntries t).filter (fun e => e.2.2 ≤ maxDepth) = [] := by
        rw [List.filter_eq_nil_iff]
        intro a ha
        have hl := rootEntries_level t a ha
        simp only [hl, decide_eq_true_eq]
        omega
      rw [hnil]
    · rw [if_neg hd]
      have hself : (rootEntries t).filter (fun e => e.2.2 ≤ maxDepth) = rootEntries t := by
        rw [List.filter_eq_self]
        intro a ha
        have hl := rootEntries_level t a ha
        simp only [hl, decide_eq_true_eq]
        omega
      rw [hself]

/-- C4 (amended): the walker yields exactly those entries whose recorded
level — the number of path segments of their *containing* directory
relative to the extraction root — is at most `maxDepth`; deeper roots are
skipped with a logged warning (`continue`), not an error, and the run
proceeds.  Consequently an entry whose own segment count is
`maxDepth + 1` (which the claim counts as "deeper than maxDepth") is
still yielded, because its parent sits at depth `maxDepth`. -/
theorem walker_keeps_exactly_parent_level_entries (t : FSDir) (maxDepth : Nat) :
    walkerItems t maxDepth = (allWalkItems t).filter (fun e => e.2.2 ≤ maxDepth) :=
  walkItemsOf_eq_filter (walkEntries t []) maxDepth

/-- Tree with a single file `f` directly under the extraction root. -/
def shallowTree : FSDir := .node [] ["f"]

/-- C4 counterexample: with `maxDepth = 0`, the file `f` has depth 1
(one path segment relative to the extraction root), which exceeds
`maxDepth`; the claim says it must appear in no batch, yet the walker
yields it (its containing directory is the root itself, at level 0). -/
theorem deep_entry_appears_in_batch :
    mkBatches 5000 (walkerItems shallowTree 0) = [[(["f"], ItemKind.file, 0)]] := by
  decide

lemma mkBatchesGo_spec {α : Type} (c : Nat) (hc : 1 ≤ c) :
    ∀ (l : List α) (acc : List (List α)) (cur : List α),
      (∀ b ∈ acc, b.length = c) → cur.length < c →
      (∀ b ∈ mkBatchesGo c acc cur l, 1 ≤ b.length ∧ b.length ≤ c) ∧
      (∀ b ∈ (mkBatchesGo c acc cur l).dropLast, b.length = c) := by
  intro l
  induction l with
  | nil =>
    intro acc cur hacc hcur
    simp only [mkBatchesGo]
    by_cases hc2 : cur.isEmpty
    · rw [if_pos hc2]
      refine ⟨fun b hb => ?_, fun b hb => hacc b ((List.dropLast_sublist acc).subset hb)⟩
      have := hacc b hb
      omega
    · rw [if_neg hc2]
      constructor
      · intro b hb
        rcases List.mem_append.mp hb with h | h
        · have := hacc b h; omega
        · simp only [List.mem_singleton] at h
          have hne : cur ≠ [] := by simpa [List.isEmpty_iff] using hc2
          have hpos : 0 < cur.length := List.length_pos.mpr hne
          rw [h]
          omega
      · intro b hb
        rw [show (acc ++ [cur]).dropLast = acc from by simp] at hb
        exact hacc b hb
  | cons x xs ih =>
    intro acc cur hacc hcur
    simp only [mkBatchesGo]
    by_cases hlen : c ≤ (cur ++ [x]).length
    · rw [if_pos hlen]
      apply ih
      · intro b hb
        rcases List.mem_append.mp hb with h | h
        · exact hacc b h
        · simp only [List.mem_singleton] at h
          subst h
          simp only [List.length_append, List.length_cons, List.length_nil] at hlen ⊢
          omega
      · simpa using hc
    · rw [if_neg hlen]
      apply ih
      · exact hacc
      · simp only [List.length_append, List.length_cons, List.length_nil] at hlen ⊢
        omega

/-- C6: for every input tree and every `chunkSize ≥ 1`, every batch the
walker yields has between 1 and `chunkSize` items, and every batch except
possibly the last has length exactly `chunkSize` (no batch is empty or
over-full). -/
theorem batches_sized_correctly (t : FSDir) (maxDepth c : Nat) (hc : 1 ≤ c) :
    (∀ b ∈ mkBatches c (walkerItems t maxDepth), 1 ≤ b.length ∧ b.length ≤ c) ∧
    (∀ b ∈ (mkBatches c (walkerItems t maxDepth)).dropLast, b.length = c) :=
  mkBatchesGo_spec c hc (walkerItems t maxDepth) [] []
    (by intro b hb; cases hb) (by simpa using hc)

/-- Witness for the C6 theorem: three root files chunked with size 2. -/
theorem batches_sized_correctly_witness :
    (∀ b ∈ mkBatches 2 (walkerItems (FSDir.node [] ["a", "b", "x"]) 5),
      1 ≤ b.length ∧ b.length ≤ 2) ∧
    (∀ b ∈ (mkBatches 2 (walkerItems (FSDir.node [] ["a", "b", "x"]) 5)).dropLast,
      b.length = 2) :=
  batches_sized_correctly (FSDir.node [] ["a", "b", "x"]) 5 2 (by decide)

/-- C8: a collected directory item has `is_empty = true` exactly when it
is accessible and its listing came back with zero children; such a
directory is described as "Empty directory" and bumps the
`empty_directories` counter by one (and only such directories do). -/
theorem directory_isEmpty_iff (d : DirSpec) (s : ProcessingStats) (r : Record)
    (h : (processDirectory d s).1 = some r) :
    (r.is_empty = true ↔ (r.is_accessible = true ∧ d.listing = ListingOutcome.ok [])) ∧
    (r.is_empty = true → r.description = "Empty directory") ∧
    ((processDirectory d s).2.empty_directories =
      if r.is_empty then s.empty_directories + 1 else s.empty_directories) := by
  cases hl : d.listing with
  | ok cs =>
    cases cs with
    | nil =>
      simp only [processDirectory, hl] at h ⊢
      simp only [List.isEmpty_nil, List.isEmpty_cons, Bool.not_true, Bool.not_false,
        Bool.and_false, Bool.false_and, Bool.and_true, Bool.true_and,
        Bool.false_eq_true, if_false, if_true, Option.some.injEq] at h
      subst h
      refine ⟨by simp, fun _ => by simp [generateDirectoryDescription], by simp⟩
    | cons y ys =>
      by_cases hdr : d.descrRaises
      · simp [processDirectory, hl, hdr] at h
      · simp only [processDirectory, hl, hdr] at h ⊢
        simp only [List.isEmpty_nil, List.isEmpty_cons, Bool.not_true, Bool.not_false,
        Bool.and_false, Bool.false_and, Bool.and_true, Bool.true_and,
        Bool.false_eq_true, if_false, if_true, Option.some.injEq] at h
        subst h
        simp
  | permErr =>
    simp only [processDirectory, hl] at h ⊢
    simp only [List.isEmpty_nil, List.isEmpty_cons, Bool.not_true, Bool.not_false,
        Bool.and_false, Bool.false_and, Bool.and_true, Bool.true_and,
        Bool.false_eq_true, if_false, if_true, Option.some.injEq] at h
    subst h
    simp
  | osErr =>
    simp only [processDirectory, hl] at h ⊢
    simp only [List.isEmpty_nil, List.isEmpty_cons, Bool.not_true, Bool.not_false,
        Bool.and_false, Bool.false_and, Bool.and_true, Bool.true_and,
        Bool.false_eq_true, if_false, if_true, Option.some.injEq] at h
    subst h
    simp

/-- Witness for the C8 theorem at a concrete empty accessible directory. -/
theorem directory_isEmpty_iff_witness :
    ((processDirectory { path := ["logs"], level := 0, listing := .ok []
                         descrRaises := false } initStats).1 =
        some ((processDirectory { path := ["logs"], level := 0, listing := .ok []
                                  descrRaises := false } initStats).1.get (by decide))) ∧
    (((processDirectory { path := ["logs"], level := 0, listing := .ok []
                          descrRaises := false } initStats).1.get (by decide)).is_empty = true ↔
      (((processDirectory { path := ["logs"], level := 0, listing := .ok []
                            descrRaises := false } initStats).1.get (by decide)).is_accessible = true ∧
        ({ path := ["logs"], level := 0, listing := .ok []
           descrRaises := false } : DirSpec).listing = ListingOutcome.ok [])) := by
  constructor
  · decide
  · exact (directory_isEmpty_iff _ initStats _ (by decide)).1

lemma strAppend_assoc (a b c : String) : a ++ b ++ c = a ++ (b ++ c) := by
  rcases a with ⟨a⟩
  rcases b with ⟨b⟩
  rcases c with ⟨c⟩
  show String.mk ((a ++ b) ++ c) = String.mk (a ++ (b ++ c))
  rw [List.append_assoc]

/-- C7: the source formatter agrees with the spec's stopping rule wherever
that rule selects a unit (every byte count below 1024^6; above that the
spec's rule selects no unit and the source falls through to `PB`), and it
produces the three example strings the claim fixes. -/
theorem format_size_matches_spec_rule :
    (∀ (n : Nat) (r : String), specHumanSize n = some r → formatSize n = r) ∧
    formatSize 500 = "500.0 B" ∧ formatSize 2048 = "2.0 KB" ∧
    formatSize 1572864 = "1.5 MB" := by
  refine ⟨?_, by decide, by decide, by decide⟩
  intro n r h
  simp only [specHumanSize] at h
  rw [show List.range 6 = [0, 1, 2, 3, 4, 5] from rfl] at h
  simp only [List.findSome?] at h
  unfold formatSize
  simp only [formatSizeLoop]
  norm_num at h ⊢
  by_cases h1 : n < 1024
  · simp only [if_pos h1] at h ⊢
    simp only [Option.some.injEq] at h
    subst h
    rfl
  · simp only [if_neg h1] at h ⊢
    by_cases h2 : n < 1048576
    · simp only [if_pos h2] at h ⊢
      simp only [Option.some.injEq] at h
      subst h
      rfl
    · simp only [if_neg h2] at h ⊢
      by_cases h3 : n < 1073741824
      · simp only [if_pos h3] at h ⊢
        simp only [Option.some.injEq] at h
        subst h
        rfl
      · simp only [if_neg h3] at h ⊢
        by_cases h4 : n < 1099511627776
        · simp only [if_pos h4] at h ⊢
          simp only [Option.some.injEq] at h
          subst h
          rfl
        · simp only [if_neg h4] at h ⊢
          by_cases h5 : n < 1125899906842624
          · simp only [if_pos h5] at h ⊢
            simp only [Option.some.injEq] at h
            subst h
            rfl
          · simp only [if_neg h5] at h ⊢
            by_cases h6 : n < 1152921504606846976
            · simp only [if_pos h6] at h
              simp only [Option.some.injEq] at h
              subst h
              rw [strAppend_assoc]
              rfl
            · simp only [if_neg h6] at h
              exact absurd h (by simp)

/-- Witness for the C7 theorem's universal part at `n = 500`. -/
theorem format_size_matches_spec_rule_witness :
    specHumanSize 500 = some "500.0 B" ∧ formatSize 500 = "500.0 B" :=
  ⟨by decide, format_size_matches_spec_rule.1 500 "500.0 B" (by decide)⟩

lemma strPairLe_antisymm {a b : String × String}
    (h1 : strPairLe a b) (h2 : strPairLe b a) : a = b := by
  rcases a with ⟨a1, a2⟩
  rcases b with ⟨b1, b2⟩
  simp only [strPairLe] at h1 h2
  rcases h1 with h1 | ⟨e1, le1⟩
  · rcases h2 with h2 | ⟨e2, le2⟩
    · exact absurd (h1.trans h2) (lt_irrefl _)
    · subst e2; exact absurd h1 (lt_irrefl _)
  · rcases h2 with h2 | ⟨e2, le2⟩
    · subst e1; exact absurd h2 (lt_irrefl _)
    · subst e1; rw [le_antisymm le1 le2]

lemma eq_of_perm_sorted_keyNodup :
    ∀ (l₁ l₂ : List Record), List.Perm l₁ l₂ → l₁.Sorted recLe → l₂.Sorted recLe →
      (l₁.map keyOf).Nodup → l₁ = l₂ := by
  intro l₁
  induction l₁ with
  | nil =>
    intro l₂ h _ _ _
    exact (List.Perm.eq_nil h.symm).symm
  | cons a t₁ ih =>
    intro l₂ h hs₁ hs₂ hnd
    cases l₂ with
    | nil => exact absurd h.eq_nil (by simp)
    | cons b t₂ =>
      have hae : a = b := by
        by_contra hne
        have ha2 : a ∈ b :: t₂ := h.mem_iff.mp (List.mem_cons_self a t₁)
        have hb1 : b ∈ a :: t₁ := h.mem_iff.mpr (List.mem_cons_self b t₂)
        have hat2 : a ∈ t₂ := by
          rcases List.mem_cons.mp ha2 with h' | h'
          · exact absurd h' hne
          · exact h'
        have hbt1 : b ∈ t₁ := by
          rcases List.mem_cons.mp hb1 with h' | h'
          · exact absurd h'.symm hne
          · exact h'
        have r1 : recLe a b := (List.sorted_cons.mp hs₁).1 b hbt1
        have r2 : recLe b a := (List.sorted_cons.mp hs₂).1 a hat2
        have hk : keyOf a = keyOf b := strPairLe_antisymm r1 r2
        have hmem : keyOf a ∉ t₁.map keyOf := by
          simp only [List.map_cons] at hnd
          exact (List.nodup_cons.mp hnd).1
        exact hmem (hk ▸ List.mem_map_of_mem keyOf hbt1)
      subst hae
      have ht : List.Perm t₁ t₂ := h.cons_inv
      have hrest := ih t₂ ht (List.sorted_cons.mp hs₁).2 (List.sorted_cons.mp hs₂).2
        (by simp only [List.map_cons] at hnd; exact (List.nodup_cons.mp hnd).2)
      rw [hrest]

lemma insertionSort_recLe_eq_of_perm (l₁ l₂ : List Record)
    (h : List.Perm l₁ l₂) (hnd : (l₁.map keyOf).Nodup) :
    List.insertionSort recLe l₁ = List.insertionSort recLe l₂ := by
  apply eq_of_perm_sorted_keyNodup
  · exact (List.perm_insertionSort recLe l₁).trans
      (h.trans (List.perm_insertionSort recLe l₂).symm)
  · exact List.sorted_insertionSort recLe l₁
  · exact List.sorted_insertionSort recLe l₂
  · exact (((List.perm_insertionSort recLe l₁).map keyOf).nodup_iff).mpr hnd

lemma recOf_path (x : ItemSpec) (r : Record) (h : recOf x = some r) :
    r.path = specPath x := by
  cases x with
  | file f =>
    cases hst : f.stat <;>
      simp only [recOf, processSingleItem, processFile, hst, specPath,
        Bool.and_false, Bool.false_and, Bool.and_true, Bool.true_and,
        Bool.false_eq_true, if_false, if_true] at h ⊢ <;>
      (try split_ifs at h) <;>
      (try dsimp only at h) <;>
      (simp only [Option.some.injEq] at h; subst h; rfl)
  | directory d =>
    cases hl : d.listing <;>
      simp only [recOf, processSingleItem, processDirectory, hl, specPath,
        Bool.and_false, Bool.false_and, Bool.and_true, Bool.true_and,
        Bool.false_eq_true, if_false, if_true] at h ⊢ <;>
      (try split_ifs at h) <;>
      (try dsimp only at h) <;>
      (simp only [Option.some.injEq] at h; subst h; rfl)

lemma collected_paths_sublist (l : List ItemSpec) :
    ((l.filterMap recOf).map (fun r => pathStr r.path)).Sublist
      (l.map (fun x => pathStr (specPath x))) := by
  induction l with
  | nil => simp
  | cons x xs ih =>
    cases hx : recOf x with
    | none =>
      simp only [List.filterMap_cons, hx, List.map_cons]
      exact ih.cons _
    | some r =>
      simp only [List.filterMap_cons, hx, List.map_cons]
      rw [recOf_path x r hx]
      exact ih.cons₂ _

lemma collected_keys_nodup (l : List ItemSpec)
    (h : (l.map (fun x => pathStr (specPath x))).Nodup) :
    ((l.filterMap recOf).map keyOf).Nodup := by
  have h1 : ((l.filterMap recOf).map (fun r => pathStr r.path)).Nodup :=
    List.Nodup.sublist (collected_paths_sublist l) h
  apply List.Nodup.of_map Prod.fst
  rw [List.map_map]
  exact h1

/-- C5: for runs over the same item set in any two processing orders (for
example `maxWorkers = 1` versus `maxWorkers = 8` schedules), provided the
collected relative paths are distinct (they are: distinct filesystem
entries have distinct root-relative paths), the final `ProcessingStats`
agree and `generate_markdown_report` produces byte-identical output given
fixed generated-at / processing-time / source strings — the renderer
re-sorts `structure_data` by `(path, type)`, erasing insertion order. -/
theorem stats_and_report_insensitive_to_order
    (o₁ o₂ : List ItemSpec) (genTime procTime zipPath : String)
    (hperm : List.Perm o₁ o₂)
    (hnd : (o₁.map (fun x => pathStr (specPath x))).Nodup) :
    (runProcess o₁).2 = (runProcess o₂).2 ∧
    generateMarkdownReport (runProcess o₁).1 (runProcess o₁).2
        genTime procTime zipPath =
      generateMarkdownReport (runProcess o₂).1 (runProcess o₂).2
        genTime procTime zipPath := by
  have hstats : (runProcess o₁).2 = (runProcess o₂).2 := by
    rw [runProcess, runProcess, runProcessAux_snd, runProcessAux_snd]
    exact foldl_applyStats_perm hperm initStats
  have hcoll : List.Perm (runProcess o₁).1 (runProcess o₂).1 := by
    rw [runProcess, runProcess, runProcessAux_fst, runProcessAux_fst]
    exact hperm.filterMap recOf
  have hnd1 : ((runProcess o₁).1.map keyOf).Nodup := by
    rw [runProcess, runProcessAux_fst]
    exact collected_keys_nodup o₁ hnd
  have hsort : List.insertionSort recLe (runProcess o₁).1 =
      List.insertionSort recLe (runProcess o₂).1 :=
    insertionSort_recLe_eq_of_perm _ _ hcoll hnd1
  refine ⟨hstats, ?_⟩
  unfold generateMarkdownReport
  rw [hsort, hstats]

/-- Concrete accessible file for the order-insensitivity witness. -/
def orderedFileItem : ItemSpec :=
  .file { path := ["a.txt"], level := 0, stat := .ok 10 0
          mime := some "text/plain", descrRaises := false }

/-- Concrete empty directory for the order-insensitivity witness. -/
def orderedDirItem : ItemSpec :=
  .directory { path := ["sub"], level := 0, listing := .ok []
               descrRaises := false }

/-- Witness for the C5 theorem on a two-item set in both orders. -/
theorem stats_and_report_insensitive_to_order_witness :
    (runProcess [orderedFileItem, orderedDirItem]).2 =
      (runProcess [orderedDirItem, orderedFileItem]).2 ∧
    generateMarkdownReport (runProcess [orderedFileItem, orderedDirItem]).1
        (runProcess [orderedFileItem, orderedDirItem]).2 "g" "p" "z" =
      generateMarkdownReport (runProcess [orderedDirItem, orderedFileItem]).1
        (runProcess [orderedDirItem, orderedFileItem]).2 "g" "p" "z" :=
  stats_and_report_insensitive_to_order
    [orderedFileItem, orderedDirItem] [orderedDirItem, orderedFileItem]
    "g" "p" "z" (by decide) (by decide)
